import Mathlib

/-!
Verification of the Hemsworth workout-tracker (repository head version,
`src/app.py`, "Hemsworth V6.3") against its natural-language specification.

The program keeps all state in flat files and re-loads every table at the
start of each user action, so every value observed by the handlers is a
string read back from CSV (logs, override store) or Excel (library).  We
therefore embed each table as a list of records of strings, except the
`Order` column of the override store, which `load_custom_days` coerces to
an integer at the load boundary (app.py line 93).

pandas `DataFrame.sort_values` on a single key guarantees, with the
default `kind`, only a permutation sorted on that key, not stability:
its contract is modelled by the relation `IsSortValuesResult`, and
`sortByOrder` (a stable insertion sort) is one particular conforming
outcome, used where tie order does not matter.
`pd.to_numeric(..., errors="coerce")` is modelled as an optional
decimal-literal parser into `Rat`.
-/

namespace Hemsworth

/-- A row of the canonical lift library (one of the two Excel files), as
loaded by `load_excel_as_str` (app.py lines 58-69): every cell a string.
The record fields are exactly the columns named at app.py lines 62-65. -/
structure LibRow where
  dayTag : String
  lift : String
  purpose : String
  region : String
  stdSR : String
  hvSR : String
  rest : String
deriving DecidableEq

/-- A row of the custom-day override store after `load_custom_days`
(app.py lines 82-96): the `REQUIRED_PLAN_COLS` columns, with `Order`
already coerced to an integer. -/
structure PlanRow where
  week : String
  dayTag : String
  order : Int
  lift : String
  purpose : String
  region : String
  stdSR : String
  hvSR : String
  rest : String
deriving DecidableEq

/-- A row of the user log (`LOG_COLS`, app.py line 44), as read back from
`user_logs.csv` by `load_logs`: every cell a string. -/
structure LogRow where
  date : String
  week : String
  dayTag : String
  lift : String
  weight : String
  reps : String
  notes : String
  mode : String
deriving DecidableEq

/-- The metadata dictionary returned by `get_master_row`
(app.py lines 121-135). -/
structure MasterMeta where
  purpose : String
  region : String
  stdSR : String
  hvSR : String
  rest : String
deriving DecidableEq

/-- The training-mode radio selector (app.py line 183): it decides which
prescription column (`sets_col`, line 184) an edit override targets. -/
inductive Mode where
  | standard
  | hemsworth
deriving DecidableEq

/-- The per-row action chosen in the Edit Day Layout expander
(app.py line 252), together with the row widgets `new_order`
(line 258) and `new_sets` (line 260) read alongside it. -/
inductive EditAction where
  | keep (newOrder : Int) (newSets : String)
  | replace (liftName : String) (newOrder : Int) (newSets : String)
  | remove
deriving DecidableEq

/-- Whether an edit action is `Remove` (app.py line 262). -/
def EditAction.isRemove : EditAction → Bool
  | .remove => true
  | _ => false

/-- The flat-file state the app.py handlers read and write:
`user_logs.csv`, `Hemsworth_Custom_Days.csv`, and the optional undo
buffer `undo_last_save.csv` (`none` = file absent). -/
structure AppFiles where
  log : List LogRow
  customDays : List PlanRow
  undoBuf : Option (List LogRow)
deriving DecidableEq

/-! ## Numeric coercion: `pd.to_numeric(..., errors="coerce")` -/

/-- Value of a digit string (most significant first). -/
def digitsToNat (cs : List Char) : Nat :=
  cs.foldl (fun n c => n * 10 + (c.toNat - 48)) 0

/-- ASCII whitespace, as stripped by pandas around a numeric literal. -/
def isSpaceChar (c : Char) : Bool :=
  c == ' ' || c == '\t' || c == '\n' || c == '\r'

/-- Strip leading and trailing whitespace from a character list. -/
def trimChars (cs : List Char) : List Char :=
  ((cs.dropWhile isSpaceChar).reverse.dropWhile isSpaceChar).reverse

/-- Model of `pd.to_numeric(x, errors="coerce")` on one cell: parse an
optionally signed decimal literal; any other string is non-numeric
(pandas NaN, here `none`). -/
def toNumeric? (s : String) : Option Rat :=
  let body : Rat × List Char :=
    match trimChars s.data with
    | '-' :: rest => (-1, rest)
    | '+' :: rest => (1, rest)
    | cs => (1, cs)
  match body.2.span (fun c => c.isDigit) with
  | (intPart, []) =>
      if intPart.isEmpty then none
      else some (body.1 * (digitsToNat intPart : Rat))
  | (intPart, '.' :: frac) =>
      if frac.all (fun c => c.isDigit) ∧ ¬(intPart.isEmpty ∧ frac.isEmpty) then
        some (body.1 * ((digitsToNat intPart : Rat) +
          (digitsToNat frac : Rat) / ((10 : Rat) ^ frac.length)))
      else none
  | _ => none

/-- `pd.to_numeric(..., errors="coerce").fillna(0)` on one cell
(app.py lines 392-393). -/
def coerceNum (s : String) : Rat := (toNumeric? s).getD 0

/-- Truncation toward zero, the semantics of pandas `.astype(int)`. -/
def ratTrunc (q : Rat) : Int := if 0 ≤ q then ⌊q⌋ else -⌊-q⌋

/-- `pd.to_numeric(..., errors="coerce").fillna(1).astype(int)` on one
`Order` cell (app.py lines 93 and 151). -/
def coerceOrder (s : String) : Int :=
  match toNumeric? s with
  | none => 1
  | some q => ratTrunc q

/-- The `Volume` column of the Progress tab (app.py lines 392-394):
weight times reps, each coerced to a number with non-numeric cells
becoming 0. -/
def volumeOf (r : LogRow) : Rat := coerceNum r.weight * coerceNum r.reps

/-! ## Loaders -/

/-- Columns of the empty shell `DataFrame` returned when a library file
is missing (app.py lines 62-65). -/
def EMPTY_SHELL_COLS : List String :=
  ["DayTag", "Lift / Exercise", "Purpose / Role", "Region / Muscle Focus",
   "Standard Sets×Reps", "Hemsworth Sets×Reps", "Rest"]

/-- The columns of the typed library record `LibRow`, i.e. the schema on
which resolution operates after loading. -/
def libSchema : List String :=
  ["DayTag", "Lift / Exercise", "Purpose / Role", "Region / Muscle Focus",
   "Standard Sets×Reps", "Hemsworth Sets×Reps", "Rest"]

/-- `load_excel_as_str` (app.py lines 58-69): a missing file (`none`)
yields the empty shell (zero rows over `EMPTY_SHELL_COLS`); otherwise the
rows are read with every cell a string.  Column-name normalization and
the Rest-to-string coercion are identities on the typed record. -/
def load_excel_as_str (file : Option (List LibRow)) : List LibRow :=
  match file with
  | none => []
  | some rows => rows

/-- A raw override-store CSV row: every cell a string, including Order. -/
structure RawPlanRow where
  week : String
  dayTag : String
  order : String
  lift : String
  purpose : String
  region : String
  stdSR : String
  hvSR : String
  rest : String
deriving DecidableEq

/-- `load_custom_days` (app.py lines 82-96): missing file yields the
empty table; otherwise the `Order` column is coerced to an integer
(unparseable becomes 1) and `Week` and `DayTag` stay strings. -/
def load_custom_days (file : Option (List RawPlanRow)) : List PlanRow :=
  (file.getD []).map (fun r =>
    { week := r.week, dayTag := r.dayTag, order := coerceOrder r.order,
      lift := r.lift, purpose := r.purpose, region := r.region,
      stdSR := r.stdSR, hvSR := r.hvSR, rest := r.rest })

/-! ## Plan resolution -/

/-- The override rows for a `(week, day)` key (app.py line 147):
`custom_days[(custom_days["Week"] == week) & (custom_days["DayTag"] == day)]`,
an exact string-equality filter on both columns. -/
def overrideRows (week day : String) (cds : List PlanRow) : List PlanRow :=
  cds.filter (fun r => decide (r.week = week ∧ r.dayTag = day))

/-- The canonical-library rows for a day (app.py lines 159-160): the
`DayTag` cell is stripped of surrounding whitespace and compared
case-insensitively with the requested day. -/
def canonicalRows (day : String) (dfW : List LibRow) : List LibRow :=
  dfW.filter (fun r => decide (r.dayTag.trim.toLower = day.toLower))

/-- `plan_row_from_master` (app.py lines 108-119): synthesize one plan
entry from a canonical row, with the requested day and week and the
given order, copying the remaining fields verbatim. -/
def plan_row_from_master (day week : String) (order : Int) (src : LibRow) : PlanRow :=
  { week := week, dayTag := day, order := order,
    lift := src.lift, purpose := src.purpose, region := src.region,
    stdSR := src.stdSR, hvSR := src.hvSR, rest := src.rest }

/-- The metadata dictionary built from a library row
(app.py lines 128-134). -/
def metaOf (r : LibRow) : MasterMeta :=
  { purpose := r.purpose, region := r.region,
    stdSR := r.stdSR, hvSR := r.hvSR, rest := r.rest }

/-- `get_master_row` (app.py lines 121-135): look the lift name up in
Week 1 first, then Week 2, by exact name equality, taking the first
matching row; all-empty metadata when the name is in neither library. -/
def get_master_row (dfW1 dfW2 : List LibRow) (liftName : String) : MasterMeta :=
  match dfW1.find? (fun r => r.lift == liftName) with
  | some r => metaOf r
  | none =>
      match dfW2.find? (fun r => r.lift == liftName) with
      | some r => metaOf r
      | none => { purpose := "", region := "", stdSR := "", hvSR := "", rest := "" }

/-- One step of the stable sort on the `Order` column: insert a row
before the first existing row whose order is not smaller. -/
def insertByOrder (r : PlanRow) : List PlanRow → List PlanRow
  | [] => [r]
  | x :: xs => if r.order ≤ x.order then r :: x :: xs else x :: insertByOrder r xs

/-- One outcome of `df.sort_values("Order")` (app.py line 104): the
stable insertion sort by ascending `Order`.  pandas with the default
kind guarantees only a sorted permutation (`IsSortValuesResult` below),
not stability, so `sortByOrder` is a particular conforming outcome; it
is used only where tie order does not matter. -/
def sortByOrder : List PlanRow → List PlanRow
  | [] => []
  | x :: xs => insertByOrder x (sortByOrder xs)

/-- The pandas contract for `df.sort_values("Order")` with the default
`kind` (app.py line 104): the result is some permutation of the rows
that is ascending in `Order`.  Stability is not part of the contract
(the default quicksort is documented as not stable), so the relative
order of rows with equal `Order` is implementation-defined. -/
def IsSortValuesResult (df sorted : List PlanRow) : Prop :=
  List.Perm sorted df ∧ List.Pairwise (fun a b => a.order ≤ b.order) sorted

/-- `df["Order"] = range(1, len(df)+1)` (app.py line 105): overwrite the
orders with consecutive integers starting at `n`. -/
def renumber (n : Int) : List PlanRow → List PlanRow
  | [] => []
  | r :: rs => { r with order := n } :: renumber (n + 1) rs

/-- `normalize_order` (app.py lines 101-106): empty table unchanged,
otherwise sort by `Order` and renumber 1..N. -/
def normalize_order (df : List PlanRow) : List PlanRow :=
  if df.isEmpty then df else renumber 1 (sortByOrder df)

/-- The canonical-derivation loop of `get_day_plan`
(app.py lines 164-167): `enumerate(base.iterrows(), start=n)` mapped
through `plan_row_from_master`. -/
def buildPlan (day week : String) : Int → List LibRow → List PlanRow
  | _, [] => []
  | n, r :: rs => plan_row_from_master day week n r :: buildPlan day week (n + 1) rs

/-- `get_day_plan` (app.py lines 144-168): if the override store has any
rows for the exact `(week, day)` key, return them order-normalized (the
`Order` re-coercion at line 151 is the identity on the already-coerced
store); otherwise derive the plan from the canonical library rows whose
stripped day-tag matches the day case-insensitively, numbered from 1. -/
def get_day_plan (day week : String) (dfW : List LibRow) (cds : List PlanRow) : List PlanRow :=
  if !(overrideRows week day cds).isEmpty then
    normalize_order (overrideRows week day cds)
  else if dfW.isEmpty then
    []
  else if (canonicalRows day dfW).isEmpty then
    []
  else
    buildPlan day week 1 (canonicalRows day dfW)

/-! ## Editing and persisting a day layout -/

/-- The Keep branch of the edit loop (app.py lines 277-286): carry the
row over with the requested order; a non-empty sets override replaces
the prescription column of the active mode only. -/
def keepRow (mode : Mode) (r : PlanRow) (newOrder : Int) (newSets : String) : PlanRow :=
  let r1 := { r with order := newOrder }
  if newSets = "" then r1
  else
    match mode with
    | .standard => { r1 with stdSR := newSets }
    | .hemsworth => { r1 with hvSR := newSets }

/-- The Replace branch of the edit loop (app.py lines 264-276): a fresh
row for the substituted lift, re-pulling its metadata via
`get_master_row`; a non-empty sets override lands in the active-mode
column, the other column keeps the re-pulled base value. -/
def replaceRow (week day : String) (mode : Mode) (w1 w2 : List LibRow)
    (liftName : String) (newOrder : Int) (newSets : String) : PlanRow :=
  let meta := get_master_row w1 w2 liftName
  { week := week, dayTag := day, order := newOrder, lift := liftName,
    purpose := meta.purpose, region := meta.region,
    stdSR := if mode = Mode.standard ∧ newSets ≠ "" then newSets else meta.stdSR,
    hvSR := if mode = Mode.hemsworth ∧ newSets ≠ "" then newSets else meta.hvSR,
    rest := meta.rest }

/-- The edit loop of the Edit Day Layout expander (app.py lines 245-286),
one action per plan row: Remove drops the row; Replace with a non-empty
lift name substitutes it; everything else (Keep, or Replace with the
falsy empty name, line 264) carries the row over via the Keep branch. -/
def applyEdit (week day : String) (mode : Mode) (w1 w2 : List LibRow) :
    List PlanRow → List EditAction → List PlanRow
  | [], _ => []
  | _, [] => []
  | r :: rs, a :: as_ =>
      match a with
      | .remove => applyEdit week day mode w1 w2 rs as_
      | .replace liftName newOrder newSets =>
          if liftName = "" then
            keepRow mode r newOrder newSets :: applyEdit week day mode w1 w2 rs as_
          else
            replaceRow week day mode w1 w2 liftName newOrder newSets ::
              applyEdit week day mode w1 w2 rs as_
      | .keep newOrder newSets =>
          keepRow mode r newOrder newSets :: applyEdit week day mode w1 w2 rs as_

/-- The Reset-to-default handler (app.py lines 298-301): drop every
override row whose `(Week, DayTag)` equals the key exactly. -/
def reset_layout (week day : String) (cds : List PlanRow) : List PlanRow :=
  cds.filter (fun r => decide (¬(r.week = week ∧ r.dayTag = day)))

/-- The Save-Layout handler (app.py lines 290-295): drop the existing
rows for the key, then append the order-normalized edited rows; the
whole store is then written back. -/
def save_layout (week day : String) (cds : List PlanRow) (edited : List PlanRow) : List PlanRow :=
  reset_layout week day cds ++ normalize_order edited

/-- The Save-Layout persist (app.py lines 290-295) under an arbitrary
contract-conforming outcome `sorted` of the line-104 sort of the edited
rows: drop the existing key rows, then append `sorted` renumbered 1..N.
`save_layout` is this with the particular outcome `sortByOrder`. -/
def save_layout_with (week day : String) (cds : List PlanRow)
    (sorted : List PlanRow) : List PlanRow :=
  reset_layout week day cds ++ renumber 1 sorted

/-! ## Log handlers -/

/-- `LOG_COLS` (app.py line 44). -/
def LOG_COLS : List String :=
  ["Date", "Week", "DayTag", "Lift / Exercise", "Weight (lbs)", "Reps", "Notes", "Mode"]

/-- The bulk-save handler (app.py lines 356-362): with a non-empty batch,
overwrite the undo buffer with exactly the batch and append the batch to
the log; an empty batch does nothing. -/
def bulk_save (s : AppFiles) (bulkRows : List LogRow) : AppFiles :=
  if bulkRows.isEmpty then s
  else { s with log := s.log ++ bulkRows, undoBuf := some bulkRows }

/-- The undo-bulk handler (app.py lines 364-375), returning the new file
state and the message shown (if any).  Buffer file absent: report only.
Buffer present but empty: nothing happens at all.  Buffer non-empty:
drop from the log every row fully equal to some buffer row (the merge on
all of `LOG_COLS` with the flag filter, lines 368-370), delete the
buffer file, report success. -/
def undo_bulk (s : AppFiles) : AppFiles × Option String :=
  match s.undoBuf with
  | none => (s, some ("No undo data found."))
  | some buf =>
      if buf.isEmpty then (s, none)
      else
        ({ s with log := s.log.filter (fun r => decide (¬ r ∈ buf)), undoBuf := none },
         some ("Last bulk save undone."))

/-- The Clear-All-Logs handler (app.py lines 450-452): write an empty
table of the log shape to the log file only. -/
def clear_all_logs (s : AppFiles) : AppFiles :=
  { s with log := [] }

/-! ## Helper lemmas -/

/-- Projection of a plan row that forgets the `Order` cell. -/
def stripOrder (r : PlanRow) : PlanRow := { r with order := 0 }

theorem list_map_ext {α β : Type} (f g : α → β) (l : List α) (h : ∀ a, f a = g a) :
    l.map f = l.map g := by
  induction l with
  | nil => rfl
  | cons x xs ih => simp [h, ih]

theorem isEmpty_false_of_ne_nil {α : Type} {l : List α} (h : l ≠ []) :
    l.isEmpty = false := by
  cases l with
  | nil => exact absurd rfl h
  | cons x xs => rfl

theorem insertByOrder_perm (r : PlanRow) (l : List PlanRow) :
    List.Perm (insertByOrder r l) (r :: l) := by
  induction l with
  | nil => exact List.Perm.refl _
  | cons x xs ih =>
    by_cases h : r.order ≤ x.order
    · simp [insertByOrder, h]
    · simp only [insertByOrder, if_neg h]
      exact (ih.cons x).trans (List.Perm.swap r x xs)

theorem sortByOrder_perm (l : List PlanRow) : List.Perm (sortByOrder l) l := by
  induction l with
  | nil => exact List.Perm.refl _
  | cons x xs ih => exact (insertByOrder_perm x (sortByOrder xs)).trans (ih.cons x)

theorem pairwise_insertByOrder {l : List PlanRow} (r : PlanRow)
    (h : l.Pairwise (fun a b => a.order ≤ b.order)) :
    (insertByOrder r l).Pairwise (fun a b => a.order ≤ b.order) := by
  induction l with
  | nil => simp [insertByOrder]
  | cons x xs ih =>
    rcases List.pairwise_cons.mp h with ⟨hx, hxs⟩
    by_cases hr : r.order ≤ x.order
    · simp only [insertByOrder, if_pos hr]
      refine List.pairwise_cons.mpr ⟨?_, h⟩
      intro b hb
      rcases List.mem_cons.mp hb with rfl | hb2
      · exact hr
      · exact le_trans hr (hx b hb2)
    · simp only [insertByOrder, if_neg hr]
      refine List.pairwise_cons.mpr ⟨?_, ih hxs⟩
      intro b hb
      rcases List.mem_cons.mp ((insertByOrder_perm r xs).mem_iff.mp hb) with rfl | hb2
      · exact le_of_lt (lt_of_not_le hr)
      · exact hx b hb2

theorem pairwise_sortByOrder (l : List PlanRow) :
    (sortByOrder l).Pairwise (fun a b => a.order ≤ b.order) := by
  induction l with
  | nil => exact List.Pairwise.nil
  | cons x xs ih => exact pairwise_insertByOrder x ih

theorem filter_insertByOrder (r : PlanRow) (l : List PlanRow) (k : Int) :
    (insertByOrder r l).filter (fun x => decide (x.order = k))
      = if r.order = k then r :: l.filter (fun x => decide (x.order = k))
        else l.filter (fun x => decide (x.order = k)) := by
  induction l with
  | nil => by_cases h : r.order = k <;> simp [insertByOrder, h]
  | cons x xs ih =>
    by_cases hr : r.order ≤ x.order
    · simp only [insertByOrder]
      rw [if_pos hr]
      by_cases h : r.order = k <;> simp [List.filter_cons, h]
    · simp only [insertByOrder]
      rw [if_neg hr]
      have hx : x.order < r.order := lt_of_not_le hr
      by_cases h : r.order = k
      · have hxk : ¬ x.order = k := by omega
        simp [List.filter_cons, h, hxk, ih]
      · by_cases hxk : x.order = k <;> simp [List.filter_cons, h, hxk, ih]

theorem filter_sortByOrder (l : List PlanRow) (k : Int) :
    (sortByOrder l).filter (fun x => decide (x.order = k))
      = l.filter (fun x => decide (x.order = k)) := by
  induction l with
  | nil => rfl
  | cons x xs ih =>
    by_cases h : x.order = k <;>
      simp [sortByOrder, filter_insertByOrder, h, List.filter_cons, ih]

theorem renumber_length (n : Int) (l : List PlanRow) :
    (renumber n l).length = l.length := by
  induction l generalizing n with
  | nil => rfl
  | cons r rs ih => simp [renumber, ih]

theorem renumber_map_order (n : Int) (l : List PlanRow) :
    (renumber n l).map (fun r => r.order)
      = (List.range l.length).map (fun i : Nat => n + (i : Int)) := by
  induction l generalizing n with
  | nil => rfl
  | cons r rs ih =>
    simp only [renumber, List.map_cons, List.length_cons, List.range_succ_eq_map,
      List.map_map, ih (n + 1)]
    congr 1
    · simp
    · apply list_map_ext
      intro a
      simp only [Function.comp_apply]
      omega

theorem renumber_map_stripOrder (n : Int) (l : List PlanRow) :
    (renumber n l).map stripOrder = l.map stripOrder := by
  induction l generalizing n with
  | nil => rfl
  | cons r rs ih => simp [renumber, stripOrder, ih]

theorem mem_renumber_key {r : PlanRow} {n : Int} {l : List PlanRow}
    (h : r ∈ renumber n l) :
    ∃ r0 ∈ l, r.week = r0.week ∧ r.dayTag = r0.dayTag := by
  induction l generalizing n with
  | nil => simp [renumber] at h
  | cons x xs ih =>
    rcases List.mem_cons.mp h with rfl | h2
    · exact ⟨x, List.mem_cons_self x xs, rfl, rfl⟩
    · rcases ih h2 with ⟨r0, hr0, hw, hd⟩
      exact ⟨r0, List.mem_cons_of_mem x hr0, hw, hd⟩

theorem normalize_order_eq (l : List PlanRow) :
    normalize_order l = renumber 1 (sortByOrder l) := by
  cases l with
  | nil => rfl
  | cons x xs => rfl

theorem buildPlan_length (day week : String) (n : Int) (l : List LibRow) :
    (buildPlan day week n l).length = l.length := by
  induction l generalizing n with
  | nil => rfl
  | cons r rs ih => simp [buildPlan, ih]

theorem buildPlan_getElem? (day week : String) (n : Int) (l : List LibRow) (i : Nat) :
    (buildPlan day week n l)[i]?
      = (l[i]?).map (fun r => plan_row_from_master day week (n + (i : Int)) r) := by
  induction l generalizing n i with
  | nil => simp [buildPlan]
  | cons r rs ih =>
    cases i with
    | zero => simp [buildPlan]
    | succ j =>
      simp only [buildPlan, List.getElem?_cons_succ, ih (n + 1) j]
      cases h : rs[j]? with
      | none => rfl
      | some v =>
        simp only [Option.map_some']
        congr 1
        push_cast
        ring_nf

theorem buildPlan_map_order (day week : String) (n : Int) (l : List LibRow) :
    (buildPlan day week n l).map (fun r => r.order)
      = (List.range l.length).map (fun i : Nat => n + (i : Int)) := by
  induction l generalizing n with
  | nil => rfl
  | cons r rs ih =>
    simp only [buildPlan, List.map_cons, List.length_cons, List.range_succ_eq_map,
      List.map_map, ih (n + 1)]
    congr 1
    · simp [plan_row_from_master]
    · apply list_map_ext
      intro a
      simp only [Function.comp_apply]
      omega

theorem overrideRows_reset_other (week day w2 d2 : String)
    (hne : ¬(w2 = week ∧ d2 = day)) (cds : List PlanRow) :
    overrideRows w2 d2 (reset_layout week day cds) = overrideRows w2 d2 cds := by
  unfold overrideRows reset_layout
  rw [List.filter_filter]
  apply List.filter_congr
  intro x _
  by_cases hk2 : x.week = w2 ∧ x.dayTag = d2
  · have hne2 : ¬w2 = week ∨ ¬d2 = day := not_and_or.mp hne
    simp [hk2, hne2]
  · simp [hk2]

theorem get_day_plan_of_override (day week : String) (dfW : List LibRow)
    (cds : List PlanRow) (h : overrideRows week day cds ≠ []) :
    get_day_plan day week dfW cds = normalize_order (overrideRows week day cds) := by
  have hf : (overrideRows week day cds).isEmpty = false := isEmpty_false_of_ne_nil h
  simp [get_day_plan, hf]

theorem get_day_plan_of_no_override (day week : String) (dfW : List LibRow)
    (cds : List PlanRow) (h : overrideRows week day cds = []) :
    get_day_plan day week dfW cds = buildPlan day week 1 (canonicalRows day dfW) := by
  have hf : (overrideRows week day cds).isEmpty = true := by rw [h]; rfl
  by_cases hw : dfW = []
  · subst hw
    simp [get_day_plan, hf, canonicalRows, buildPlan]
  · have hwf : dfW.isEmpty = false := isEmpty_false_of_ne_nil hw
    by_cases hb : canonicalRows day dfW = []
    · simp [get_day_plan, hf, hwf, hb, buildPlan]
    · have hbf : (canonicalRows day dfW).isEmpty = false := isEmpty_false_of_ne_nil hb
      simp [get_day_plan, hf, hwf, hbf]

theorem overrideRows_append (week day : String) (l1 l2 : List PlanRow) :
    overrideRows week day (l1 ++ l2)
      = overrideRows week day l1 ++ overrideRows week day l2 := by
  simp [overrideRows, List.filter_append]

theorem overrideRows_reset (week day : String) (cds : List PlanRow) :
    overrideRows week day (reset_layout week day cds) = [] := by
  induction cds with
  | nil => rfl
  | cons r t ih =>
    by_cases h : r.week = week ∧ r.dayTag = day <;>
      simp only [reset_layout, overrideRows, List.filter_cons] at ih ⊢ <;>
      simp [h, ih]

theorem overrideRows_of_all_key (week day : String) {l : List PlanRow}
    (h : ∀ r ∈ l, r.week = week ∧ r.dayTag = day) :
    overrideRows week day l = l := by
  unfold overrideRows
  rw [List.filter_eq_self]
  intro a ha
  simpa using h a ha

theorem mem_overrideRows (week day : String) (cds : List PlanRow) (r : PlanRow) :
    r ∈ overrideRows week day cds ↔ r ∈ cds ∧ r.week = week ∧ r.dayTag = day := by
  simp [overrideRows, List.mem_filter]

theorem mem_canonicalRows (day : String) (dfW : List LibRow) (r : LibRow) :
    r ∈ canonicalRows day dfW ↔ r ∈ dfW ∧ r.dayTag.trim.toLower = day.toLower := by
  simp [canonicalRows, List.mem_filter]

theorem keepRow_week (mode : Mode) (r : PlanRow) (o : Int) (s : String) :
    (keepRow mode r o s).week = r.week := by
  cases mode <;> by_cases h : s = "" <;> simp [keepRow, h]

theorem keepRow_dayTag (mode : Mode) (r : PlanRow) (o : Int) (s : String) :
    (keepRow mode r o s).dayTag = r.dayTag := by
  cases mode <;> by_cases h : s = "" <;> simp [keepRow, h]

theorem applyEdit_length (week day : String) (mode : Mode) (w1 w2 : List LibRow)
    (plan : List PlanRow) (acts : List EditAction) :
    (applyEdit week day mode w1 w2 plan acts).length
      = ((plan.zip acts).filter (fun pa => !pa.2.isRemove)).length := by
  induction plan generalizing acts with
  | nil => simp [applyEdit]
  | cons r rs ih =>
    cases acts with
    | nil => rfl
    | cons a as_ =>
      cases a with
      | remove =>
        simp [applyEdit, List.zip_cons_cons, List.filter_cons, EditAction.isRemove, ih]
      | keep o s =>
        simp [applyEdit, List.zip_cons_cons, List.filter_cons, EditAction.isRemove, ih]
      | replace nm o s =>
        by_cases hn : nm = "" <;>
          simp [applyEdit, hn, List.zip_cons_cons, List.filter_cons,
            EditAction.isRemove, ih]

theorem applyEdit_keys (week day : String) (mode : Mode) (w1 w2 : List LibRow)
    {plan : List PlanRow} (acts : List EditAction)
    (hkey : ∀ r ∈ plan, r.week = week ∧ r.dayTag = day) :
    ∀ r ∈ applyEdit week day mode w1 w2 plan acts,
      r.week = week ∧ r.dayTag = day := by
  induction plan generalizing acts with
  | nil => intro r hr; simp [applyEdit] at hr
  | cons p ps ih =>
    intro r hr
    cases acts with
    | nil => simp [applyEdit] at hr
    | cons a as_ =>
      have hp := hkey p (List.mem_cons_self p ps)
      have htail : ∀ x ∈ ps, x.week = week ∧ x.dayTag = day :=
        fun x hx => hkey x (List.mem_cons_of_mem p hx)
      cases a with
      | remove => exact ih as_ htail r hr
      | keep o s =>
        rcases List.mem_cons.mp hr with rfl | hmem
        · rw [keepRow_week, keepRow_dayTag]
          exact hp
        · exact ih as_ htail r hmem
      | replace nm o s =>
        by_cases hn : nm = ""
        · simp only [applyEdit, hn, if_pos rfl] at hr
          rcases List.mem_cons.mp hr with rfl | hmem
          · rw [keepRow_week, keepRow_dayTag]
            exact hp
          · exact ih as_ htail r hmem
        · simp only [applyEdit, if_neg hn] at hr
          rcases List.mem_cons.mp hr with rfl | hmem
          · exact ⟨rfl, rfl⟩
          · exact ih as_ htail r hmem

/-! ## Sample data for concrete witnesses -/

/-- An override row for key `("1", "Day 1")` saved with order 5. -/
def ovSquat : PlanRow :=
  { week := "1", dayTag := "Day 1", order := 5, lift := "Squat",
    purpose := "strength", region := "legs", stdSR := "3x5", hvSR := "5x5",
    rest := "90s" }

/-- An override row for key `("1", "Day 1")` saved with order 2. -/
def ovBench : PlanRow :=
  { week := "1", dayTag := "Day 1", order := 2, lift := "Bench",
    purpose := "press", region := "chest", stdSR := "3x8", hvSR := "5x8",
    rest := "60s" }

/-- An override row for another key, `("2", "Day 1")`. -/
def ovWeek2 : PlanRow :=
  { week := "2", dayTag := "Day 1", order := 1, lift := "Row",
    purpose := "pull", region := "back", stdSR := "3x10", hvSR := "5x10",
    rest := "60s" }

/-- A canonical library row tagged `" day 1 "` (matches `"Day 1"` after
strip and lowercase). -/
def libSquat : LibRow :=
  { dayTag := " day 1 ", lift := "Squat", purpose := "strength",
    region := "legs", stdSR := "3x5", hvSR := "5x5", rest := "90s" }

/-- A canonical library row tagged `"day 1"`. -/
def libBench : LibRow :=
  { dayTag := "day 1", lift := "Bench", purpose := "press",
    region := "chest", stdSR := "3x8", hvSR := "5x8", rest := "60s" }

/-- A canonical library row for a different day. -/
def libRow2 : LibRow :=
  { dayTag := "Day 2", lift := "Row", purpose := "pull",
    region := "back", stdSR := "3x10", hvSR := "5x10", rest := "60s" }

/-! ## Claim C1 -/

/-- C1: whenever the override store holds at least one row for the exact
`(week, day)` key, `get_day_plan` returns exactly those rows, stably
sorted by ascending `Order` and renumbered 1..N; the canonical library
argument is ignored entirely; and the override selection is exact string
equality on `Week` and `DayTag` (not case-insensitive). -/
theorem c1_override_total_precedence (day week : String) (dfW : List LibRow)
    (cds : List PlanRow) (h : overrideRows week day cds ≠ []) :
    get_day_plan day week dfW cds
        = renumber 1 (sortByOrder (overrideRows week day cds))
    ∧ (∀ dfW2 : List LibRow,
        get_day_plan day week dfW2 cds = get_day_plan day week dfW cds)
    ∧ (get_day_plan day week dfW cds).map stripOrder
        = (sortByOrder (overrideRows week day cds)).map stripOrder
    ∧ List.Perm (sortByOrder (overrideRows week day cds)) (overrideRows week day cds)
    ∧ List.Pairwise (fun a b => a.order ≤ b.order)
        (sortByOrder (overrideRows week day cds))
    ∧ (get_day_plan day week dfW cds).map (fun r => r.order)
        = (List.range (overrideRows week day cds).length).map
            (fun i : Nat => (i : Int) + 1)
    ∧ (∀ r : PlanRow,
        r ∈ overrideRows week day cds ↔ r ∈ cds ∧ r.week = week ∧ r.dayTag = day) := by
  have he := get_day_plan_of_override day week dfW cds h
  refine ⟨?_, ?_, ?_, sortByOrder_perm _, pairwise_sortByOrder _, ?_, ?_⟩
  · rw [he, normalize_order_eq]
  · intro dfW2
    rw [get_day_plan_of_override day week dfW2 cds h, he]
  · rw [he, normalize_order_eq, renumber_map_stripOrder]
  · rw [he, normalize_order_eq, renumber_map_order, (sortByOrder_perm _).length_eq]
    apply list_map_ext
    intro a
    omega
  · exact mem_overrideRows week day cds

/-- C1 witness: a store with rows saved at orders 5 and 2 for the key. -/
theorem c1_override_total_precedence_witness :
    overrideRows "1" "Day 1" [ovSquat, ovBench, ovWeek2] ≠ []
    ∧ get_day_plan "Day 1" "1" [libSquat, libBench] [ovSquat, ovBench, ovWeek2]
        = renumber 1 (sortByOrder (overrideRows "1" "Day 1" [ovSquat, ovBench, ovWeek2])) :=
  ⟨by decide,
   (c1_override_total_precedence "Day 1" "1" [libSquat, libBench]
     [ovSquat, ovBench, ovWeek2] (by decide)).1⟩

/-! ## Claim C2 -/

/-- C2: with no override rows for the key, `get_day_plan` derives one
entry per canonical row whose stripped day-tag matches the requested day
case-insensitively, in library source order, with `Order` the 1-based
position and the remaining fields copied verbatim by
`plan_row_from_master`; no matching canonical row yields the empty
table, not an error. -/
theorem c2_canonical_derivation (day week : String) (dfW : List LibRow)
    (cds : List PlanRow) (h : overrideRows week day cds = []) :
    get_day_plan day week dfW cds = buildPlan day week 1 (canonicalRows day dfW)
    ∧ (get_day_plan day week dfW cds).length = (canonicalRows day dfW).length
    ∧ (∀ i : Nat, (get_day_plan day week dfW cds)[i]?
        = ((canonicalRows day dfW)[i]?).map
            (fun r => plan_row_from_master day week (1 + (i : Int)) r))
    ∧ (get_day_plan day week dfW cds).map (fun r => r.order)
        = (List.range (canonicalRows day dfW).length).map
            (fun i : Nat => (i : Int) + 1)
    ∧ (canonicalRows day dfW = [] → get_day_plan day week dfW cds = [])
    ∧ (∀ r : LibRow,
        r ∈ canonicalRows day dfW ↔ r ∈ dfW ∧ r.dayTag.trim.toLower = day.toLower) := by
  have he := get_day_plan_of_no_override day week dfW cds h
  refine ⟨he, ?_, ?_, ?_, ?_, mem_canonicalRows day dfW⟩
  · rw [he, buildPlan_length]
  · intro i
    rw [he, buildPlan_getElem?]
  · rw [he, buildPlan_map_order]
    apply list_map_ext
    intro a
    omega
  · intro hb
    rw [he, hb]
    rfl

/-- C2 witness: the spec §8 example shape, with a whitespace-padded
lower-case day tag in the library and no override for the key. -/
theorem c2_canonical_derivation_witness :
    overrideRows "1" "Day 1" [ovWeek2] = []
    ∧ get_day_plan "Day 1" "1" [libSquat, libBench, libRow2] [ovWeek2]
        = buildPlan "Day 1" "1" 1 (canonicalRows "Day 1" [libSquat, libBench, libRow2]) :=
  ⟨by decide,
   (c2_canonical_derivation "Day 1" "1" [libSquat, libBench, libRow2] [ovWeek2]
     (by decide)).1⟩

/-! ## Claim C7 -/

/-- C7: a missing canonical library file loads as an empty table with
the expected schema columns rather than failing, and resolution on it
proceeds: with no override rows for the key the result is the empty
plan. -/
theorem c7_missing_library_degrades (day week : String) (cds : List PlanRow)
    (h : overrideRows week day cds = []) :
    load_excel_as_str none = []
    ∧ EMPTY_SHELL_COLS = libSchema
    ∧ get_day_plan day week (load_excel_as_str none) cds = [] := by
  refine ⟨rfl, rfl, ?_⟩
  rw [get_day_plan_of_no_override day week _ cds h]
  rfl

/-- C7 witness: the missing-library session still resolves a day. -/
theorem c7_missing_library_degrades_witness :
    overrideRows "1" "Day 1" [ovWeek2] = []
    ∧ get_day_plan "Day 1" "1" (load_excel_as_str none) [ovWeek2] = [] :=
  ⟨by decide,
   (c7_missing_library_degrades "Day 1" "1" [ovWeek2] (by decide)).2.2⟩

/-! ## Claim C8 -/

/-- C8: resetting a day deletes exactly the override rows of that key:
afterwards none remain for the key, every other key's rows are exactly
preserved, the store only loses rows (sublist), and a subsequent resolve
for the key derives from the canonical library. -/
theorem c8_reset_reverts_to_canonical (week day : String) (dfW : List LibRow)
    (cds : List PlanRow) (_h : overrideRows week day cds ≠ []) :
    overrideRows week day (reset_layout week day cds) = []
    ∧ (∀ w2 d2 : String, ¬(w2 = week ∧ d2 = day) →
        overrideRows w2 d2 (reset_layout week day cds) = overrideRows w2 d2 cds)
    ∧ List.Sublist (reset_layout week day cds) cds
    ∧ get_day_plan day week dfW (reset_layout week day cds)
        = buildPlan day week 1 (canonicalRows day dfW) := by
  refine ⟨overrideRows_reset week day cds, ?_, ?_, ?_⟩
  · intro w2 d2 hne
    exact overrideRows_reset_other week day w2 d2 hne cds
  · exact List.filter_sublist cds
  · rw [get_day_plan_of_no_override day week dfW _ (overrideRows_reset week day cds)]

/-- C8 witness: reset on `("1", "Day 1")` with two override rows for the
key and one for key `("2", "Day 1")`. -/
theorem c8_reset_reverts_to_canonical_witness :
    overrideRows "1" "Day 1" [ovSquat, ovBench, ovWeek2] ≠ []
    ∧ overrideRows "1" "Day 1" (reset_layout "1" "Day 1" [ovSquat, ovBench, ovWeek2]) = [] :=
  ⟨by decide,
   (c8_reset_reverts_to_canonical "1" "Day 1" [libSquat]
     [ovSquat, ovBench, ovWeek2] (by decide)).1⟩

/-! ## Claim C3 -/

/-- C3 counterexample to the claim as stated: the tie-break guarantee
("ties broken by the rows' original relative position - a stable sort")
is not given by the code.  The persist sorts via `df.sort_values` with
the default kind, whose contract (`IsSortValuesResult`) promises only a
sorted permutation.  At a concrete edit producing two kept rows with
equal requested order 1 (Squat then Bench, in that original relative
position), the swapped list is also a contract-conforming sort outcome,
and persisting it stores Bench before Squat: a conforming execution
whose stored tie order differs from the original relative position. -/
theorem c3_unstable_tie_counterexample :
    IsSortValuesResult
      (applyEdit "1" "Day 1" Mode.standard [] [] [ovSquat, ovBench]
        [EditAction.keep 1 "", EditAction.keep 1 ""])
      [{ ovBench with order := 1 }, { ovSquat with order := 1 }]
    ∧ (applyEdit "1" "Day 1" Mode.standard [] [] [ovSquat, ovBench]
        [EditAction.keep 1 "", EditAction.keep 1 ""]).map (fun r => r.lift)
      = ["Squat", "Bench"]
    ∧ (overrideRows "1" "Day 1"
        (save_layout_with "1" "Day 1" []
          [{ ovBench with order := 1 }, { ovSquat with order := 1 }])).map
            (fun r => r.lift)
      = ["Bench", "Squat"] := by
  refine ⟨⟨?_, ?_⟩, ?_, ?_⟩
  · exact List.Perm.swap ({ ovSquat with order := 1 }) ({ ovBench with order := 1 }) []
  · decide
  · decide
  · decide

/-- C3 as amended: after the edit loop and Save Layout, for every
contract-conforming outcome of the line-104 sort of the edited rows,
the override rows stored for the `(week, day)` key are exactly that
ascending-by-requested-order arrangement of the kept or replaced rows,
renumbered to the contiguous sequence 1..N with no gaps or duplicates,
where N is the number of kept or replaced rows (removed rows excluded);
the relative order of rows with equal requested order is whatever the
underlying sort produced and is not guaranteed to preserve the rows'
original relative position.  The last two conjuncts record that the
file's `save_layout` (via `normalize_order`) is this persist at one
particular conforming outcome, `sortByOrder`. -/
theorem c3_save_layout_renumbers (week day : String) (mode : Mode)
    (w1 w2 : List LibRow) (cds plan : List PlanRow) (acts : List EditAction)
    (sorted : List PlanRow)
    (hkey : ∀ r ∈ plan, r.week = week ∧ r.dayTag = day)
    (hs : IsSortValuesResult (applyEdit week day mode w1 w2 plan acts) sorted) :
    overrideRows week day (save_layout_with week day cds sorted)
      = renumber 1 sorted
    ∧ (overrideRows week day (save_layout_with week day cds sorted)).map
          (fun r => r.order)
      = (List.range sorted.length).map (fun i : Nat => (i : Int) + 1)
    ∧ sorted.length
      = ((plan.zip acts).filter (fun pa => !pa.2.isRemove)).length
    ∧ (renumber 1 sorted).map stripOrder = sorted.map stripOrder
    ∧ IsSortValuesResult (applyEdit week day mode w1 w2 plan acts)
        (sortByOrder (applyEdit week day mode w1 w2 plan acts))
    ∧ save_layout week day cds (applyEdit week day mode w1 w2 plan acts)
      = save_layout_with week day cds
          (sortByOrder (applyEdit week day mode w1 w2 plan acts)) := by
  have hed : ∀ r ∈ applyEdit week day mode w1 w2 plan acts,
      r.week = week ∧ r.dayTag = day :=
    applyEdit_keys week day mode w1 w2 acts hkey
  have hsav : overrideRows week day (save_layout_with week day cds sorted)
      = renumber 1 sorted := by
    unfold save_layout_with
    rw [overrideRows_append, overrideRows_reset, List.nil_append]
    apply overrideRows_of_all_key
    intro r hr
    rcases mem_renumber_key hr with ⟨r0, hr0, hw, hd⟩
    have hk0 := hed r0 (hs.1.mem_iff.mp hr0)
    exact ⟨hw.trans hk0.1, hd.trans hk0.2⟩
  refine ⟨hsav, ?_, ?_, renumber_map_stripOrder 1 sorted,
    ⟨sortByOrder_perm _, pairwise_sortByOrder _⟩, ?_⟩
  · rw [hsav, renumber_map_order]
    apply list_map_ext
    intro a
    omega
  · rw [hs.1.length_eq, applyEdit_length]
  · unfold save_layout save_layout_with
    rw [normalize_order_eq]

/-- C3 witness: keep the first row at requested order 9, replace the
second at requested order 3, remove nothing, over a store holding an
unrelated key, taking the insertion-sort outcome as the conforming sort
result. -/
theorem c3_save_layout_renumbers_witness :
    (∀ r ∈ [ovSquat, ovBench], r.week = "1" ∧ r.dayTag = "Day 1")
    ∧ overrideRows "1" "Day 1"
        (save_layout_with "1" "Day 1" [ovWeek2]
          (sortByOrder (applyEdit "1" "Day 1" Mode.standard [libSquat, libBench] []
            [ovSquat, ovBench]
            [EditAction.keep 9 "", EditAction.replace "Squat" 3 ""])))
      = renumber 1 (sortByOrder
          (applyEdit "1" "Day 1" Mode.standard [libSquat, libBench] []
            [ovSquat, ovBench]
            [EditAction.keep 9 "", EditAction.replace "Squat" 3 ""])) :=
  ⟨by decide,
   (c3_save_layout_renumbers "1" "Day 1" Mode.standard [libSquat, libBench] []
     [ovWeek2] [ovSquat, ovBench]
     [EditAction.keep 9 "", EditAction.replace "Squat" 3 ""]
     (sortByOrder (applyEdit "1" "Day 1" Mode.standard [libSquat, libBench] []
       [ovSquat, ovBench]
       [EditAction.keep 9 "", EditAction.replace "Squat" 3 ""]))
     (by decide)
     ⟨sortByOrder_perm _, pairwise_sortByOrder _⟩).1⟩

/-! ## Claim C4 -/

/-- C4: a bulk append of `[r1, r2]` followed immediately by undo removes
exactly those two rows, restoring the previous log, provided no
pre-existing log row equals `r1` or `r2`; the undo buffer is cleared and
the override store is untouched. -/
theorem c4_bulk_save_undo_roundtrip (s : AppFiles) (r1 r2 : LogRow)
    (h : ∀ r ∈ s.log, r ≠ r1 ∧ r ≠ r2) :
    (undo_bulk (bulk_save s [r1, r2])).1.log = s.log
    ∧ (undo_bulk (bulk_save s [r1, r2])).1.undoBuf = none
    ∧ (undo_bulk (bulk_save s [r1, r2])).1.customDays = s.customDays := by
  have hkeep : s.log.filter (fun r => decide (¬ r ∈ [r1, r2])) = s.log := by
    rw [List.filter_eq_self]
    intro a ha
    rcases h a ha with ⟨h1, h2⟩
    simp [List.mem_cons, h1, h2]
  have hdrop : [r1, r2].filter (fun r => decide (¬ r ∈ [r1, r2])) = [] := by
    simp
  refine ⟨?_, rfl, rfl⟩
  show (s.log ++ [r1, r2]).filter (fun r => decide (¬ r ∈ [r1, r2])) = s.log
  rw [List.filter_append, hkeep, hdrop, List.append_nil]

/-- A pre-existing log row. -/
def logRowOld : LogRow :=
  { date := "2024-01-01 09:00", week := "1", dayTag := "Day 1",
    lift := "Row", weight := "135", reps := "8", notes := "", mode := "Standard" }

/-- First fresh bulk row. -/
def logRowA : LogRow :=
  { date := "2024-01-02 10:00", week := "1", dayTag := "Day 1",
    lift := "Squat", weight := "200", reps := "5", notes := "", mode := "Standard" }

/-- Second fresh bulk row. -/
def logRowB : LogRow :=
  { date := "2024-01-02 10:00", week := "1", dayTag := "Day 1",
    lift := "Bench", weight := "150", reps := "5", notes := "", mode := "Standard" }

/-- A concrete file state with one logged row and no undo buffer. -/
def filesOneRow : AppFiles :=
  { log := [logRowOld], customDays := [ovWeek2], undoBuf := none }

/-- C4 witness: one pre-existing row, two fresh bulk rows. -/
theorem c4_bulk_save_undo_roundtrip_witness :
    (∀ r ∈ filesOneRow.log, r ≠ logRowA ∧ r ≠ logRowB)
    ∧ (undo_bulk (bulk_save filesOneRow [logRowA, logRowB])).1.log = filesOneRow.log :=
  ⟨by decide,
   (c4_bulk_save_undo_roundtrip filesOneRow logRowA logRowB (by decide)).1⟩

/-! ## Claim C5 -/

/-- C5: the aggregator computes volume as weight times reps row-wise;
a weight or reps cell that does not parse as a number is coerced to 0
(so the product is well-defined for every row instead of raising). -/
theorem c5_volume_coercion (r : LogRow) :
    volumeOf r = coerceNum r.weight * coerceNum r.reps
    ∧ (toNumeric? r.weight = none → coerceNum r.weight = 0)
    ∧ (toNumeric? r.reps = none → coerceNum r.reps = 0)
    ∧ (∀ a b : Rat, toNumeric? r.weight = some a → toNumeric? r.reps = some b →
        volumeOf r = a * b) := by
  refine ⟨rfl, ?_, ?_, ?_⟩
  · intro h
    simp [coerceNum, h]
  · intro h
    simp [coerceNum, h]
  · intro a b ha hb
    simp [volumeOf, coerceNum, ha, hb]

/-- C5 witness: numeric cells multiply; a non-numeric cell parses to
nothing and is coerced to 0. -/
theorem c5_volume_coercion_witness :
    toNumeric? ("200") = some 200
    ∧ toNumeric? ("bodyweight") = none
    ∧ volumeOf logRowA = 1000 := by
  have h200 : toNumeric? ("200") = some 200 := by
    rw [show toNumeric? ("200") = some ((1 : Rat) * ((200 : Nat) : Rat)) from rfl]
    norm_num
  have h5 : toNumeric? ("5") = some 5 := by
    rw [show toNumeric? ("5") = some ((1 : Rat) * ((5 : Nat) : Rat)) from rfl]
    norm_num
  refine ⟨h200, rfl, ?_⟩
  have hv := (c5_volume_coercion logRowA).2.2.2 200 5 h200 h5
  rw [hv]
  norm_num

/-! ## Claim C6 (amended) -/

/-- C6 as amended: with a non-empty undo buffer, undo removes from the
log every row fully equal to some buffer row, clears the buffer (the
file is deleted), leaves the override store alone, and reports success;
with the buffer file absent it is a no-op on the log that reports that
no undo data was found; with the buffer file present but holding zero
rows it is a silent no-op: the log is unchanged, no message is shown,
and the buffer file is not removed. -/
theorem c6_undo_bulk_cases (s : AppFiles) (buf : List LogRow) :
    (s.undoBuf = none → undo_bulk s = (s, some ("No undo data found.")))
    ∧ (s.undoBuf = some [] → undo_bulk s = (s, none))
    ∧ (s.undoBuf = some buf → buf ≠ [] →
        (undo_bulk s).1.log = s.log.filter (fun r => decide (¬ r ∈ buf))
        ∧ (undo_bulk s).1.undoBuf = none
        ∧ (undo_bulk s).1.customDays = s.customDays
        ∧ (undo_bulk s).2 = some ("Last bulk save undone.")
        ∧ (∀ r : LogRow, r ∈ (undo_bulk s).1.log ↔ r ∈ s.log ∧ ¬ r ∈ buf)) := by
  refine ⟨?_, ?_, ?_⟩
  · intro h
    simp [undo_bulk, h]
  · intro h
    simp [undo_bulk, h]
  · intro h hne
    have hf : buf.isEmpty = false := isEmpty_false_of_ne_nil hne
    simp [undo_bulk, h, hf, List.mem_filter]

/-- A file state whose undo buffer holds one row that also sits in the
log. -/
def filesWithBuf : AppFiles :=
  { log := [logRowOld, logRowA], customDays := [], undoBuf := some [logRowA] }

/-- A file state whose undo buffer file exists but holds zero rows. -/
def filesEmptyBuf : AppFiles :=
  { log := [logRowOld], customDays := [], undoBuf := some [] }

/-- C6 witness (for the amended claim): a non-empty one-row buffer whose
row also sits in the log. -/
theorem c6_undo_bulk_cases_witness :
    filesWithBuf.undoBuf = some [logRowA]
    ∧ [logRowA] ≠ ([] : List LogRow)
    ∧ (undo_bulk filesWithBuf).1.log
      = filesWithBuf.log.filter (fun r => decide (¬ r ∈ [logRowA])) :=
  ⟨rfl, by decide,
   ((c6_undo_bulk_cases filesWithBuf [logRowA]).2.2 rfl (by decide)).1⟩

/-- C6 counterexample to the claim as stated: with the undo buffer file
present but empty, the claim says the handler reports that there is
nothing to undo; the code emits no message at all (and also leaves the
empty buffer file in place), while indeed not touching the log. -/
theorem c6_empty_buffer_is_silent :
    (undo_bulk filesEmptyBuf).2 = none
    ∧ (undo_bulk filesEmptyBuf).1 = filesEmptyBuf :=
  ⟨rfl, rfl⟩

/-! ## Claim C9 -/

/-- C9: the Replace metadata lookup searches the Week 1 library before
Week 2: the first Week 1 row matching the exercise name supplies the
attributes whatever Week 2 contains; a Week 2 row is used only when the
name is absent from Week 1; and when the name is in neither library all
attributes default to the empty string. -/
theorem c9_master_row_week1_first (w1 w2 : List LibRow) (name : String) :
    (∀ r : LibRow, w1.find? (fun x => x.lift == name) = some r →
        ∀ w2b : List LibRow, get_master_row w1 w2b name = metaOf r)
    ∧ ((∃ r ∈ w1, r.lift = name) →
        ∃ r ∈ w1, r.lift = name ∧ get_master_row w1 w2 name = metaOf r)
    ∧ ((∀ r ∈ w1, r.lift ≠ name) →
        ∀ r : LibRow, w2.find? (fun x => x.lift == name) = some r →
          get_master_row w1 w2 name = metaOf r)
    ∧ ((∀ r ∈ w1, r.lift ≠ name) → (∀ r ∈ w2, r.lift ≠ name) →
        get_master_row w1 w2 name
          = { purpose := "", region := "", stdSR := "", hvSR := "", rest := "" }) := by
  refine ⟨?_, ?_, ?_, ?_⟩
  · intro r hr w2b
    simp [get_master_row, hr]
  · rintro ⟨r, hr, hlift⟩
    have hs : (w1.find? (fun x => x.lift == name)).isSome := by
      rw [List.find?_isSome]
      exact ⟨r, hr, by simp [hlift]⟩
    rcases Option.isSome_iff_exists.mp hs with ⟨r0, hr0⟩
    refine ⟨r0, List.mem_of_find?_eq_some hr0, ?_, by simp [get_master_row, hr0]⟩
    simpa using List.find?_some hr0
  · intro h1 r hr
    have hn : w1.find? (fun x => x.lift == name) = none := by
      rw [List.find?_eq_none]
      intro x hx
      simpa using h1 x hx
    simp [get_master_row, hn, hr]
  · intro h1 h2
    have hn1 : w1.find? (fun x => x.lift == name) = none := by
      rw [List.find?_eq_none]
      intro x hx
      simpa using h1 x hx
    have hn2 : w2.find? (fun x => x.lift == name) = none := by
      rw [List.find?_eq_none]
      intro x hx
      simpa using h2 x hx
    simp [get_master_row, hn1, hn2]

/-- A Week 2 library row that shares the name `"Squat"` with the Week 1
row `libSquat` but carries different attributes. -/
def libSquatWeek2 : LibRow :=
  { dayTag := "Day 1", lift := "Squat", purpose := "variation",
    region := "legs-w2", stdSR := "4x6", hvSR := "6x6", rest := "120s" }

/-- C9 witness: `"Squat"` is in both libraries; the Week 1 attributes
win. -/
theorem c9_master_row_week1_first_witness :
    List.find? (fun x => x.lift == "Squat") [libSquat] = some libSquat
    ∧ get_master_row [libSquat] [libSquatWeek2] "Squat" = metaOf libSquat :=
  ⟨by decide,
   (c9_master_row_week1_first [libSquat] [libSquatWeek2] "Squat").1 libSquat
     (by decide) [libSquatWeek2]⟩

/-! ## Claim C10 -/

/-- C10: the Clear All Logs action writes an empty log table and touches
nothing else: the custom-day override store and the undo buffer file are
exactly as before. -/
theorem c10_clear_logs_frame (s : AppFiles) :
    (clear_all_logs s).log = ([] : List LogRow)
    ∧ (clear_all_logs s).customDays = s.customDays
    ∧ (clear_all_logs s).undoBuf = s.undoBuf :=
  ⟨rfl, rfl, rfl⟩

end Hemsworth
